import Mathlib

/-!
Shallow embedding of `rq/registries.py` (redis_tasks): the expiring task
registries, the worker liveness registry and the queue registry, together
with the Redis store operations they invoke.  Redis sorted sets are modelled
as lists of `(member, score)` pairs in the set's iteration order (score
order for a well-formed set, carried as a hypothesis where a theorem needs
it); scores and timestamps are integers; Redis sets are `Finset String`;
the per-worker running-task list is a `List String` per worker id.
-/

/-- An entry of a Redis sorted set: `(member, score)`. -/
abbrev ZEntry := String × Int

/-- A score bound argument of a range query: `-inf`, a number, or `+inf`. -/
inductive ZBound where
  | ninf
  | fin (x : Int)
  | pinf
deriving DecidableEq

/-- Does score `s` satisfy the lower bound (inclusive)? -/
def ZBound.asLo : ZBound → Int → Bool
  | .ninf, _ => true
  | .fin x, s => decide (x ≤ s)
  | .pinf, _ => false

/-- Does score `s` satisfy the upper bound (inclusive)? -/
def ZBound.asHi : ZBound → Int → Bool
  | .ninf, _ => false
  | .fin x, s => decide (s ≤ x)
  | .pinf, _ => true

/-- Score `s` lies in the inclusive range `[lo, hi]`. -/
def zInRange (lo hi : ZBound) (s : Int) : Bool := lo.asLo s && hi.asHi s

/-- `ZRANGEBYSCORE key lo hi`: the members whose score lies in the range, in
the set's stored order. -/
def zrangebyscore (z : List ZEntry) (lo hi : ZBound) : List String :=
  (z.filter fun e => zInRange lo hi e.2).map Prod.fst

/-- `ZREMRANGEBYSCORE key lo hi`: remove every entry whose score lies in the
range. -/
def zremrangebyscore (z : List ZEntry) (lo hi : ZBound) : List ZEntry :=
  z.filter fun e => !zInRange lo hi e.2

/-- `ZRANGE key 0 -1`: all members in stored order. -/
def zrangeAll (z : List ZEntry) : List String := z.map Prod.fst

/-- `ZSCORE key m`: the stored score of member `m`, if present. -/
def zscore (z : List ZEntry) (m : String) : Option Int :=
  (z.find? fun e => e.1 == m).map Prod.snd

/-- `ZADD key {m: s} XX CH`: update the score of `m` only when `m` already
exists, never inserting.  The second component is the `CH` reply: the number
of elements actually changed — an existing member whose stored score already
equals `s` is not counted as changed, and an absent member changes nothing. -/
def zadd_xx_ch (z : List ZEntry) (m : String) (s : Int) : List ZEntry × Nat :=
  (z.map fun e => if e.1 == m then (e.1, s) else e,
   match zscore z m with
   | some s0 => if s0 = s then 0 else 1
   | none => 0)

/-- Store state of one `ExpiringRegistry`: the score-ordered set of
`(task id, insertion timestamp)` entries under its key, plus the task-record
store holding the ids of existing task records. -/
structure RegState where
  reg : List ZEntry
  records : List String
deriving DecidableEq

/-- The store effects `expire()` issues, in the order it issues them. -/
inductive Effect where
  | zremrangeEff (lo hi : Int)
  | deleteManyEff (ids : List String)
deriving DecidableEq

/-- Modelled from the spec: `Task.delete_many(ids)` (rq/task.py is not among
the source files) "permanently deletes the underlying task records for those
ids" — every record whose id is listed is removed from the record store. -/
def delete_many (ids : List String) (records : List String) : List String :=
  records.filter fun r => decide (r ∉ ids)

/-- `ExpiringRegistry.expire()`: reads the clock once, computes
`cutoff_time = timestamp - EXPIRING_REGISTRIES_TTL`, reads the ids with score
in `[0, cutoff_time]`, and if there are any, removes that score range and
deletes the task records of the ids read.  Returns the final state and the
trace of store effects in order. -/
def expire (now ttl : Int) (st : RegState) : RegState × List Effect :=
  let cutoff := now - ttl
  let expired := zrangebyscore st.reg (.fin 0) (.fin cutoff)
  if expired = [] then (st, [])
  else
    (⟨zremrangebyscore st.reg (.fin 0) (.fin cutoff), delete_many expired st.records⟩,
     [.zremrangeEff 0 cutoff, .deleteManyEff expired])

/-- `WorkerRegistry.heartbeat(worker)`: `ZADD key {worker.id: now} XX CH`;
raises `NoSuchWorkerError` when the reply reports nothing changed.  Returns
the registry state after the call and whether the error was raised. -/
def heartbeat (z : List ZEntry) (workerId : String) (now : Int) : List ZEntry × Bool :=
  ((zadd_xx_ch z workerId now).1, (zadd_xx_ch z workerId now).2 == 0)

/-- `WorkerRegistry.get_worker_ids()`: `ZRANGEBYSCORE key -inf +inf`. -/
def get_worker_ids (z : List ZEntry) : List String :=
  zrangebyscore z .ninf .pinf

/-- `WorkerRegistry.get_dead_ids()`: `oldest_valid = now - WORKER_HEARTBEAT_TIMEOUT`;
`ZRANGEBYSCORE key -inf oldest_valid`. -/
def get_dead_ids (z : List ZEntry) (now timeout : Int) : List String :=
  zrangebyscore z .ninf (.fin (now - timeout))

/-- Store state seen by `WorkerRegistry.get_running_task_ids`: the workers
sorted set plus, for each worker id, the Redis list under
`worker_task:<worker id>`. -/
structure WorkerState where
  workers : List ZEntry
  workerTask : String → List String

/-- `WorkerRegistry.get_running_task_ids()`: the registered script walks
`ZRANGE workers 0 -1` and, for each worker id, collects
`LINDEX worker_task:<id> 0` when the list is non-empty. -/
def get_running_task_ids (st : WorkerState) : List String :=
  (zrangeAll st.workers).filterMap fun wid => (st.workerTask wid).head?

/-- Outcome of running a piece of Python code: a value, or an uncaught
`TypeError` or `AttributeError`. -/
inductive PyOutcome (α : Type) where
  | ok (a : α)
  | typeError
  | attributeError
deriving DecidableEq

/-- The def of `get_dead_ids(self)` takes no parameter besides `self`, so a
call passing extra positional arguments raises `TypeError`.  `extraArgs` is
the number of positional arguments the call site passes beyond the bound
receiver. -/
def get_dead_ids_call (z : List ZEntry) (now timeout : Int) (extraArgs : Nat) :
    PyOutcome (List String) :=
  if extraArgs = 0 then .ok (get_dead_ids z now timeout) else .typeError

/-- `WorkerRegistry.handle_died_workers()`: evaluates
`worker_registry.get_dead_ids(self)` — a call passing one extra positional
argument — and then, for each returned id, fetches the worker and invokes its
died() transition (modelled from the spec: rq/worker.py is not among the
source files; the `ok` value records the ids the transition is invoked on,
in order). -/
def handle_died_workers (z : List ZEntry) (now timeout : Int) : PyOutcome (List String) :=
  match get_dead_ids_call z now timeout 1 with
  | .ok ids => .ok ids
  | .typeError => .typeError
  | .attributeError => .attributeError

/-- The attributes a `WorkerRegistry` instance exposes: `key` set in
`__init__` plus the methods the class defines (source lines 40–91). -/
def workerRegistryAttrs : List String :=
  ["key", "add", "heartbeat", "remove", "get_worker_ids",
   "get_running_task_ids", "handle_died_workers", "get_dead_ids"]

/-- `registry_maintenance()`: expires the finished and the failed registry
and then evaluates `worker_registry.handle_dead_workers()`; the attribute
lookup raises `AttributeError` when the name is not an attribute of the
instance. -/
def registry_maintenance (finished failed : RegState) (workers : List ZEntry)
    (now ttl timeout : Int) : PyOutcome (RegState × RegState × List String) :=
  let f := (expire now ttl finished).1
  let fl := (expire now ttl failed).1
  if "handle_dead_workers" ∈ workerRegistryAttrs then
    match handle_died_workers workers now timeout with
    | .ok ids => .ok (f, fl, ids)
    | .typeError => .typeError
    | .attributeError => .attributeError
  else .attributeError

/-- `QueueRegistry.get_names()`: `sorted(SMEMBERS key)`. -/
def get_names (s : Finset String) : List String :=
  s.sort (· ≤ ·)

/-- `QueueRegistry.add(queue)`: `SADD key queue.name`. -/
def QueueRegistry.add (s : Finset String) (name : String) : Finset String :=
  insert name s

/-- `QueueRegistry.remove(queue)`: `SREM key queue.name`. -/
def QueueRegistry.remove (s : Finset String) (name : String) : Finset String :=
  s.erase name

/-- The running-task collection as the spec words it: walk the worker ids in
enumeration order; a worker whose single slot holds a task id contributes
that id, a worker whose slot is empty contributes nothing. -/
def runningSpecWalk (slot : String → List String) : List String → List String
  | [] => []
  | w :: ws =>
    match (slot w).head? with
    | some t => t :: runningSpecWalk slot ws
    | none => runningSpecWalk slot ws

/-- A store state in which two live workers both hold task id t0 in their
running-task slots: nothing in the store rules it out. -/
def dupSlotState : WorkerState :=
  ⟨[("w1", 1), ("w2", 2)], fun w => if w = "w1" ∨ w = "w2" then ["t0"] else []⟩

/-- A well-formed store state: three workers, two of them running distinct
tasks and one idle. -/
def runningState : WorkerState :=
  ⟨[("w1", 1), ("w2", 2), ("w3", 3)],
   fun w => if w = "w1" then ["ta"] else if w = "w3" then ["tb"] else []⟩

/-! ## Helper lemmas about the store model -/

lemma zInRange_fin_fin (a b s : Int) :
    zInRange (.fin a) (.fin b) s = true ↔ a ≤ s ∧ s ≤ b := by
  simp [zInRange, ZBound.asLo, ZBound.asHi]

lemma mem_zrangebyscore {z : List ZEntry} {lo hi : ZBound} {i : String} :
    i ∈ zrangebyscore z lo hi ↔ ∃ s, (i, s) ∈ z ∧ zInRange lo hi s = true := by
  simp only [zrangebyscore, List.mem_map, List.mem_filter]
  constructor
  · rintro ⟨⟨i0, s0⟩, ⟨hm, hr⟩, rfl⟩
    exact ⟨s0, hm, hr⟩
  · rintro ⟨s, hm, hr⟩
    exact ⟨(i, s), ⟨hm, hr⟩, rfl⟩

lemma mem_zremrangebyscore {z : List ZEntry} {lo hi : ZBound} {i : String} {s : Int} :
    (i, s) ∈ zremrangebyscore z lo hi ↔ (i, s) ∈ z ∧ ¬zInRange lo hi s = true := by
  simp [zremrangebyscore, List.mem_filter]

lemma zrangebyscore_eq_nil_iff {z : List ZEntry} {lo hi : ZBound} :
    zrangebyscore z lo hi = [] ↔ ∀ e ∈ z, ¬zInRange lo hi e.2 = true := by
  simp [zrangebyscore, List.filter_eq_nil_iff]

lemma zscore_map_update {z : List ZEntry} {w m : String} {s : Int} (hne : m ≠ w) :
    zscore (z.map fun e => if e.1 == w then (e.1, s) else e) m = zscore z m := by
  induction z with
  | nil => rfl
  | cons e t ih =>
    by_cases he : e.1 = w
    · have h1 : (e.1 == w) = true := beq_iff_eq.mpr he
      have h2 : (e.1 == m) = false := beq_eq_false_iff_ne.mpr fun h => hne (h ▸ he)
      simpa [zscore, List.find?, h1, h2] using ih
    · have h1 : (e.1 == w) = false := beq_eq_false_iff_ne.mpr he
      by_cases hm : e.1 = m
      · have h2 : (e.1 == m) = true := beq_iff_eq.mpr hm
        simp [zscore, List.find?, h1, h2]
      · have h2 : (e.1 == m) = false := beq_eq_false_iff_ne.mpr hm
        simpa [zscore, List.find?, h1, h2] using ih

lemma zscore_map_update_self {z : List ZEntry} {w : String} {s : Int}
    (h : zscore z w ≠ none) :
    zscore (z.map fun e => if e.1 == w then (e.1, s) else e) w = some s := by
  induction z with
  | nil => exact absurd rfl h
  | cons e t ih =>
    by_cases he : e.1 = w
    · have h1 : (e.1 == w) = true := beq_iff_eq.mpr he
      simp [zscore, List.find?, h1]
    · have h1 : (e.1 == w) = false := beq_eq_false_iff_ne.mpr he
      have h2 : zscore t w ≠ none := by
        simpa [zscore, List.find?, h1] using h
      simpa [zscore, List.find?, h1] using ih h2

lemma zscore_eq_of_mem {z : List ZEntry} (hnd : (z.map Prod.fst).Nodup)
    {e : ZEntry} (he : e ∈ z) : zscore z e.1 = some e.2 := by
  induction z with
  | nil => cases he
  | cons a t ih =>
    rcases List.mem_cons.mp he with rfl | ht
    · simp [zscore, List.find?]
    · have hnd2 : (t.map Prod.fst).Nodup := (List.nodup_cons.mp (by simpa using hnd)).2
      have hne : a.1 ≠ e.1 := by
        intro hc
        exact (List.nodup_cons.mp (by simpa using hnd)).1
          (hc ▸ List.mem_map_of_mem Prod.fst ht)
      have h1 : (a.1 == e.1) = false := beq_eq_false_iff_ne.mpr hne
      simpa [zscore, List.find?, h1] using ih hnd2 ht

/-! ## The claims -/

/-- C8: `QueueRegistry.get_names()` returns exactly the set of registered
queue names, sorted in ascending lexicographic order, with no repetition. -/
theorem C8_get_names_sorted (s : Finset String) :
    (∀ n, n ∈ get_names s ↔ n ∈ s) ∧
    List.Sorted (· ≤ ·) (get_names s) ∧
    (get_names s).Nodup :=
  ⟨fun _ => Finset.mem_sort _, Finset.sort_sorted _ s, Finset.sort_nodup _ s⟩

/-- C9: `QueueRegistry.add` and `QueueRegistry.remove` are idempotent: adding
a name twice equals adding it once and the name is then a member; removing a
name twice equals removing it once and the name is then absent.  Neither
operation has an error outcome in the model, mirroring `SADD`/`SREM`, which
never fail on repetition. -/
theorem C9_queue_add_remove_idempotent (s : Finset String) (q : String) :
    QueueRegistry.add (QueueRegistry.add s q) q = QueueRegistry.add s q ∧
    q ∈ QueueRegistry.add s q ∧
    QueueRegistry.remove (QueueRegistry.remove s q) q = QueueRegistry.remove s q ∧
    q ∉ QueueRegistry.remove s q :=
  ⟨Finset.insert_idem q s, Finset.mem_insert_self q s,
   Finset.erase_idem, Finset.not_mem_erase q s⟩

/-- C10: when no registry entry has a score at or below `cutoff = now - ttl`,
`expire` leaves the registry and the task records unchanged and issues no
store effect at all — in particular no `Task.delete_many` call. -/
theorem C10_expire_noop (now ttl : Int) (st : RegState)
    (h : ∀ e ∈ st.reg, now - ttl < e.2) :
    expire now ttl st = (st, []) := by
  have hnil : zrangebyscore st.reg (.fin 0) (.fin (now - ttl)) = [] := by
    rw [zrangebyscore_eq_nil_iff]
    intro e he
    rw [zInRange_fin_fin]
    rintro ⟨-, hle⟩
    exact absurd hle (not_le.mpr (h e he))
  simp [expire, hnil]

/-- Witness for C10 at a concrete registry whose entries are all fresh. -/
theorem C10_expire_noop_witness :
    expire 10 4 ⟨[("a", 7), ("b", 9)], ["a", "b"]⟩ =
      (⟨[("a", 7), ("b", 9)], ["a", "b"]⟩, []) :=
  C10_expire_noop 10 4 ⟨[("a", 7), ("b", 9)], ["a", "b"]⟩ (by decide)

/-- C1: `expire` computes `cutoff = now - ttl` once and (a) removes from the
score-ordered registry exactly the entries whose score lies in `[0, cutoff]`
— so an entry with timestamp `T ≥ 0` is never removed while `now < T + ttl`
and is removed once `now ≥ T + ttl`, and no entry with score above the
cutoff is removed — (b) deletes the task records of exactly the removed ids,
and (c) issues the record deletion strictly after the registry removal (the
effect trace is either empty or the range-removal at the single cutoff
followed by the record deletion). -/
theorem C1_expire_exact (now ttl : Int) (st : RegState) :
    (∀ i s, (i, s) ∈ (expire now ttl st).1.reg ↔
      ((i, s) ∈ st.reg ∧ ¬(0 ≤ s ∧ s ≤ now - ttl))) ∧
    (∀ i, i ∈ (expire now ttl st).1.records ↔
      (i ∈ st.records ∧ ¬∃ s, (i, s) ∈ st.reg ∧ 0 ≤ s ∧ s ≤ now - ttl)) ∧
    ((expire now ttl st).2 = [] ∨
      (expire now ttl st).2 =
        [Effect.zremrangeEff 0 (now - ttl),
         Effect.deleteManyEff
           (zrangebyscore st.reg (ZBound.fin 0) (ZBound.fin (now - ttl)))]) ∧
    (∀ i s, (i, s) ∈ st.reg → 0 ≤ s → now < s + ttl →
      (i, s) ∈ (expire now ttl st).1.reg) ∧
    (∀ i s, (i, s) ∈ st.reg → 0 ≤ s → s + ttl ≤ now →
      (i, s) ∉ (expire now ttl st).1.reg) := by
  have hA : ∀ i s, (i, s) ∈ (expire now ttl st).1.reg ↔
      ((i, s) ∈ st.reg ∧ ¬(0 ≤ s ∧ s ≤ now - ttl)) := by
    intro i s
    by_cases hnil : zrangebyscore st.reg (ZBound.fin 0) (ZBound.fin (now - ttl)) = []
    · have h2 := zrangebyscore_eq_nil_iff.mp hnil
      simp only [expire, hnil, if_pos]
      constructor
      · intro hm
        refine ⟨hm, ?_⟩
        have h3 := h2 (i, s) hm
        rw [zInRange_fin_fin] at h3
        exact h3
      · exact fun hh => hh.1
    · simp only [expire, hnil, if_neg, not_false_iff]
      rw [mem_zremrangebyscore, zInRange_fin_fin]
  have hB : ∀ i, i ∈ (expire now ttl st).1.records ↔
      (i ∈ st.records ∧ ¬∃ s, (i, s) ∈ st.reg ∧ 0 ≤ s ∧ s ≤ now - ttl) := by
    intro i
    by_cases hnil : zrangebyscore st.reg (ZBound.fin 0) (ZBound.fin (now - ttl)) = []
    · have h2 := zrangebyscore_eq_nil_iff.mp hnil
      simp only [expire, hnil, if_pos]
      constructor
      · intro hm
        refine ⟨hm, ?_⟩
        rintro ⟨s, hms, h0, hc⟩
        have h3 := h2 (i, s) hms
        rw [zInRange_fin_fin] at h3
        exact h3 ⟨h0, hc⟩
      · exact fun hh => hh.1
    · simp only [expire, hnil, if_neg, not_false_iff, delete_many, List.mem_filter,
        decide_eq_true_eq, mem_zrangebyscore, zInRange_fin_fin]
  refine ⟨hA, hB, ?_, ?_, ?_⟩
  · by_cases hnil : zrangebyscore st.reg (ZBound.fin 0) (ZBound.fin (now - ttl)) = []
    · left
      simp [expire, hnil]
    · right
      simp [expire, hnil]
  · intro i s hm h0 hlt
    exact (hA i s).mpr ⟨hm, by omega⟩
  · intro i s hm h0 hle hmem
    exact ((hA i s).mp hmem).2 ⟨h0, by omega⟩

/-- C4: the dead-worker maintenance entry point does not behave as claimed:
even on an empty registry, where `get_dead_ids` yields no ids,
`handle_died_workers` raises `TypeError` (line 83 calls
`worker_registry.get_dead_ids(self)` with an extra positional argument), and
`registry_maintenance` raises `AttributeError` (line 37 calls
`worker_registry.handle_dead_workers()`, an attribute the class does not
define — its method is named `handle_died_workers`). -/
theorem C4_maintenance_code_bug :
    get_dead_ids [] 100 5 = [] ∧
    handle_died_workers [] 100 5 = PyOutcome.typeError ∧
    registry_maintenance ⟨[], []⟩ ⟨[], []⟩ [] 100 30 5 = PyOutcome.attributeError := by
  refine ⟨rfl, rfl, ?_⟩
  have hattr : ("handle_dead_workers" ∈ workerRegistryAttrs) = False := by
    simp [workerRegistryAttrs]
  simp [registry_maintenance, hattr]

/-- C2 as stated is false: heartbeat raises the error not only when the
worker id is absent.  With the registry holding worker w1 at score 5, a
heartbeat for w1 at time 5 is an existing id — yet `ZADD XX CH` reports
nothing changed (the stored score already equals the new one) and the code
raises `NoSuchWorkerError`. -/
theorem C2_heartbeat_counterexample :
    ¬(((heartbeat [("w1", 5)] "w1" 5).2 = true) ↔ zscore [("w1", 5)] "w1" = none) := by
  decide

/-- C2 amended: `heartbeat` raises `NoSuchWorkerError` iff the worker id is
absent from the liveness registry or its stored score already equals the
current time; when the id is present it always ends up with score `now`
(and in particular, when its stored score differs from `now`, the score is
updated and no error is raised). -/
theorem C2_heartbeat_amended (z : List ZEntry) (w : String) (now : Int) :
    ((heartbeat z w now).2 = true ↔
      (zscore z w = none ∨ zscore z w = some now)) ∧
    (∀ s0, zscore z w = some s0 → zscore (heartbeat z w now).1 w = some now) := by
  constructor
  · unfold heartbeat zadd_xx_ch
    rcases h : zscore z w with _ | s0
    · simp [h]
    · by_cases hs : s0 = now <;> simp [h, hs]
  · intro s0 h
    unfold heartbeat zadd_xx_ch
    exact zscore_map_update_self (by simp [h])

/-- C6: `heartbeat` never inserts into the liveness registry: when the
worker id is absent the state after the raising call is identical to the
state before it; the member list (hence membership of every id) is always
unchanged; and the score of every id other than the heartbeating worker is
untouched. -/
theorem C6_heartbeat_never_inserts (z : List ZEntry) (w : String) (now : Int) :
    (zscore z w = none → (heartbeat z w now).1 = z) ∧
    ((heartbeat z w now).1.map Prod.fst = z.map Prod.fst) ∧
    (∀ m, m ≠ w → zscore (heartbeat z w now).1 m = zscore z m) := by
  refine ⟨?_, ?_, fun m hne => zscore_map_update hne⟩
  · intro h
    have h2 : ∀ e ∈ z, ¬((fun e : ZEntry => e.1 == w) e = true) :=
      List.find?_eq_none.mp (Option.map_eq_none.mp h)
    unfold heartbeat zadd_xx_ch
    calc (z.map fun e => if e.1 == w then (e.1, now) else e) = z.map id :=
          List.map_congr_left fun e he => by
            have h3 : (e.1 == w) = false := by simpa using h2 e he
            simp [h3]
      _ = z := List.map_id z
  · unfold heartbeat zadd_xx_ch
    rw [List.map_map]
    refine List.map_congr_left fun e _ => ?_
    by_cases hc : (e.1 == w) = true <;> simp [Function.comp, hc]

/-- C3 as stated is false at the boundary: a worker whose last heartbeat
score is exactly `now - HEARTBEAT_TIMEOUT` satisfies the spec's liveness
condition (score ≥ now − timeout), yet `ZRANGEBYSCORE -inf oldest_valid` is
inclusive, so the id is returned by `get_dead_ids`.  With timeout 5, a
worker last heard at 5 is returned at time 10. -/
theorem C3_dead_ids_counterexample :
    ¬((5 : Int) ≥ 10 - 5 → "w1" ∉ get_dead_ids [("w1", 5)] 10 5) := by
  decide

/-- C3 amended: a worker whose last heartbeat score is strictly greater than
`now - HEARTBEAT_TIMEOUT` never appears among the ids returned by
`get_dead_ids` (equivalently: a worker last heard at `T` is not a
reclamation candidate while `now < T + timeout`; at exactly `T + timeout`
it already is one, the range bound being inclusive). -/
theorem C3_dead_ids_amended (z : List ZEntry) (now timeout : Int) (w : String) (s : Int)
    (hmem : (w, s) ∈ z) (hnd : (z.map Prod.fst).Nodup)
    (hfresh : now - timeout < s) :
    w ∉ get_dead_ids z now timeout := by
  intro hw
  rw [get_dead_ids, mem_zrangebyscore] at hw
  obtain ⟨s2, hm2, hr⟩ := hw
  have hs2 : s2 ≤ now - timeout := by
    simpa [zInRange, ZBound.asLo, ZBound.asHi] using hr
  have h1 : zscore z w = some s := zscore_eq_of_mem hnd hmem
  have h2 : zscore z w = some s2 := zscore_eq_of_mem hnd hm2
  rw [h1] at h2
  cases Option.some_inj.mp h2
  omega

/-- Witness for C3 amended: a worker heard 2 time units ago, within a
timeout of 5, is not among the dead ids. -/
theorem C3_dead_ids_amended_witness :
    "w1" ∉ get_dead_ids [("w1", 8), ("w2", 2)] 10 5 :=
  C3_dead_ids_amended [("w1", 8), ("w2", 2)] 10 5 "w1" 8
    (by decide) (by decide) (by decide)

/-- C7: `get_worker_ids` returns exactly the ids present in the liveness
registry — every stored id, live or stale — and, the registry being stored
in ascending score order, the returned ids are in ascending order of their
last-heartbeat score. -/
theorem C7_worker_ids (z : List ZEntry)
    (hs : List.Sorted (fun a b : ZEntry => a.2 ≤ b.2) z)
    (hnd : (z.map Prod.fst).Nodup) :
    (∀ w, w ∈ get_worker_ids z ↔ ∃ s, (w, s) ∈ z) ∧
    get_worker_ids z = z.map Prod.fst ∧
    List.Pairwise
      (fun a b => ∀ sa sb, zscore z a = some sa → zscore z b = some sb → sa ≤ sb)
      (get_worker_ids z) := by
  have hall : get_worker_ids z = z.map Prod.fst := by
    unfold get_worker_ids zrangebyscore
    have h : ∀ e ∈ z, zInRange .ninf .pinf e.2 = true := by
      intro e _
      simp [zInRange, ZBound.asLo, ZBound.asHi]
    rw [List.filter_eq_self.mpr h]
  refine ⟨?_, hall, ?_⟩
  · intro w
    rw [get_worker_ids, mem_zrangebyscore]
    constructor
    · rintro ⟨s, hm, -⟩
      exact ⟨s, hm⟩
    · rintro ⟨s, hm⟩
      exact ⟨s, hm, by simp [zInRange, ZBound.asLo, ZBound.asHi]⟩
  · rw [hall, List.pairwise_map]
    refine List.Pairwise.imp_of_mem ?_ hs
    intro a b ha hb hab sa sb hsa hsb
    rw [zscore_eq_of_mem hnd ha] at hsa
    rw [zscore_eq_of_mem hnd hb] at hsb
    cases Option.some_inj.mp hsa
    cases Option.some_inj.mp hsb
    exact hab

/-- Witness for C7 at a two-worker registry stored in score order. -/
theorem C7_worker_ids_witness :
    get_worker_ids [("a", 1), ("b", 3)] = ["a", "b"] :=
  (C7_worker_ids [("a", 1), ("b", 3)] (by decide) (by decide)).2.1

lemma filterMap_head_eq_walk (slot : String → List String) (ws : List String) :
    ws.filterMap (fun w => (slot w).head?) = runningSpecWalk slot ws := by
  induction ws with
  | nil => rfl
  | cons w ws ih =>
    rw [List.filterMap_cons]
    cases h : (slot w).head? <;> simp [runningSpecWalk, h, ih]

lemma nodup_filterMap_head (slot : String → List String) (ws : List String)
    (hnd : ws.Nodup)
    (hinj : ∀ w1 ∈ ws, ∀ w2 ∈ ws, w1 ≠ w2 →
      (slot w1).head? = none ∨ (slot w1).head? ≠ (slot w2).head?) :
    (ws.filterMap fun w => (slot w).head?).Nodup := by
  induction ws with
  | nil => simp
  | cons w ws ih =>
    rw [List.filterMap_cons]
    have hndt : ws.Nodup := (List.nodup_cons.mp hnd).2
    have hwmem : w ∉ ws := (List.nodup_cons.mp hnd).1
    have hinjt : ∀ w1 ∈ ws, ∀ w2 ∈ ws, w1 ≠ w2 →
        (slot w1).head? = none ∨ (slot w1).head? ≠ (slot w2).head? :=
      fun w1 h1 w2 h2 =>
        hinj w1 (List.mem_cons_of_mem w h1) w2 (List.mem_cons_of_mem w h2)
    cases h : (slot w).head? with
    | none => exact ih hndt hinjt
    | some t =>
      rw [List.nodup_cons]
      refine ⟨?_, ih hndt hinjt⟩
      intro hmem
      obtain ⟨w2, hw2, hsome⟩ := List.mem_filterMap.mp hmem
      have hne : w ≠ w2 := fun hc => hwmem (hc ▸ hw2)
      rcases hinj w (List.mem_cons_self w ws) w2 (List.mem_cons_of_mem w hw2) hne with
        h0 | hne2
      · rw [h] at h0
        cases h0
      · exact hne2 (by rw [h, hsome])

/-- C5 as stated is false: for a store state in which two workers' slots hold
the same task id, `get_running_task_ids` returns that id twice.  The script
does not deduplicate; the no-duplicates property rests on the system
invariant that each task runs on at most one worker, which an arbitrary
store state need not satisfy. -/
theorem C5_running_ids_counterexample :
    ¬(get_running_task_ids dupSlotState).Nodup := by
  have h : get_running_task_ids dupSlotState = ["t0", "t0"] := by decide
  rw [h]
  decide

/-- C5 amended: `get_running_task_ids` walks the worker ids in enumeration
order and collects, for each worker whose single-slot running-task list is
non-empty, the id it holds, workers with an empty slot contributing nothing;
its membership is exactly the held ids of the enumerated workers; and the
returned list has no duplicate provided distinct registered workers hold
distinct task ids (the documented at-most-one-running-task invariant). -/
theorem C5_running_ids_amended (st : WorkerState)
    (hnd : (zrangeAll st.workers).Nodup)
    (hinj : ∀ w1 ∈ zrangeAll st.workers, ∀ w2 ∈ zrangeAll st.workers, w1 ≠ w2 →
      (st.workerTask w1).head? = none ∨
        (st.workerTask w1).head? ≠ (st.workerTask w2).head?) :
    get_running_task_ids st = runningSpecWalk st.workerTask (zrangeAll st.workers) ∧
    (∀ t, t ∈ get_running_task_ids st ↔
      ∃ w ∈ zrangeAll st.workers, (st.workerTask w).head? = some t) ∧
    (get_running_task_ids st).Nodup := by
  refine ⟨filterMap_head_eq_walk st.workerTask (zrangeAll st.workers), ?_, ?_⟩
  · intro t
    simp [get_running_task_ids, List.mem_filterMap]
  · exact nodup_filterMap_head st.workerTask (zrangeAll st.workers) hnd hinj

/-- Witness for C5 amended at a three-worker state with two distinct running
tasks: the returned list has no duplicates. -/
theorem C5_running_ids_amended_witness :
    (get_running_task_ids runningState).Nodup :=
  (C5_running_ids_amended runningState (by decide) (by decide)).2.2
